import Mathlib

/-!
Shallow embedding of the `trace` Matrix-export client (src/lib.rs, src/export.rs)
and proofs about its room-resolution and history-export pipeline.

Strings are modelled by Lean `String`; Rust's byte-lexicographic `cmp` on UTF-8
strings is modelled by codepoint-lexicographic comparison on `String.data`
(UTF-8 byte order coincides with codepoint order).  Fallible Rust code
(`Result`, `?`) is modelled with `Except`; panicking `unwrap` calls on
`Option` are modelled by `Option` results (`none` = panic).
-/

----------------------------------------------------------------
--  Event payloads (matrix-sdk event shapes, as consumed here) --
----------------------------------------------------------------

/-- Model of `ruma::events::room::message::MessageType`: the message subtypes
the renderer distinguishes, plus one catch-all for every other subtype. -/
inductive MessageType where
  | text (body : String)
  | emote (body : String)
  | notice (body : String)
  | otherMsgtype
deriving DecidableEq

/-- Model of `ruma::events::AnyMessageLikeEvent` as consumed by the renderer:
a room message (whose `as_original()` is `none` exactly when the event is
redacted) or any other message-like event. -/
inductive AnyMessageLikeEvent where
  | roomMessage (original : Option MessageType)
  | otherMessageLike
deriving DecidableEq

/-- Model of `ruma::events::AnyTimelineEvent`: message-like or state. -/
inductive AnyTimelineEvent where
  | messageLike (e : AnyMessageLikeEvent)
  | state
deriving DecidableEq

/-- A successfully deserialized timeline event: origin timestamp in
milliseconds since the Unix epoch (`origin_server_ts`), sender user id, and
the event body. -/
structure ParsedEvent where
  origin_server_ts : Nat
  sender : String
  event : AnyTimelineEvent
deriving DecidableEq

/-- Model of `matrix_sdk::deserialized_responses::TimelineEvent`: a raw JSON
payload (`raw`, re-serialized verbatim by the JSON export) together with the
result of `event.deserialize()` (`parsed = none` models a deserialization
failure). -/
structure RawEvent where
  raw : String
  parsed : Option ParsedEvent
deriving DecidableEq

----------------------------------------------------------------
--  Rooms and the session's room directory                     --
----------------------------------------------------------------

/-- Model of `matrix_sdk::Room` as used by this program: its cached metadata
accessors (`room_id`, `name`, `canonical_alias`, `alt_aliases`), its
server-side message history (drained by `room.messages`), a fault model for
the history endpoint (`failAt = some k`: any page fetch starting at event
index `≥ k` fails, modelling a transport error), and its member list
(`get_member_no_sync`: user id to optional display name). -/
structure Room where
  room_id : String
  name : Option String
  canonical_alias : Option String
  alt_aliases : List String
  history : List RawEvent
  failAt : Option Nat
  members : List (String × Option String)
deriving DecidableEq

instance : Inhabited Room := ⟨⟨"", none, none, [], [], none, []⟩⟩

/-- `RoomWithCachedInfo` from src/lib.rs: one directory entry, the room's
cached display metadata plus the room handle itself. -/
structure RoomWithCachedInfo where
  id : String
  name : Option String
  canonical_alias : Option String
  alt_aliases : List String
  room : Room
deriving DecidableEq

instance : Inhabited RoomWithCachedInfo := ⟨⟨"", none, none, [], default⟩⟩

/-- `room.get_member_no_sync(user_id)`: `some d` when the member is found
(`d` its optional display name), `none` when no such member is known. -/
def get_member_no_sync (room : Room) (user_id : String) : Option (Option String) :=
  (room.members.find? (fun p => p.1 == user_id)).map (·.2)

----------------------------------------------------------------
--  String ordering (Rust `str::cmp`, byte-lexicographic)      --
----------------------------------------------------------------

/-- Lexicographic `≤` on character lists; `lexLe a b` models Rust's
`a.cmp(b) != Ordering::Greater` for the underlying strings. -/
def lexLe : List Char → List Char → Bool
  | [], _ => true
  | _ :: _, [] => false
  | c1 :: t1, c2 :: t2 => if c1 = c2 then lexLe t1 t2 else decide (c1 < c2)

/-- The comparator of `get_rooms_info`'s `sort_by` in src/lib.rs, rendered as
a `≤` test: `roomLe r1 r2` holds exactly when the source comparator returns
`Less` or `Equal` on `(r1, r2)`. -/
def roomLe (r1 r2 : RoomWithCachedInfo) : Bool :=
  match r1.name, r2.name with
  | some name_1, some name_2 => lexLe name_1.data name_2.data
  | some _, none => false
  | none, some _ => true
  | none, none =>
    match r1.canonical_alias, r2.canonical_alias with
    | some alias_1, some alias_2 => lexLe alias_1.data alias_2.data
    | some _, none => false
    | none, some _ => true
    | none, none => lexLe r1.id.data r2.id.data

/-- The per-room construction inside `get_rooms_info`: snapshot the room's
cached metadata into a directory entry. -/
def mkRoomWithCachedInfo (room : Room) : RoomWithCachedInfo :=
  ⟨room.room_id, room.name, room.canonical_alias, room.alt_aliases, room⟩

/-- `get_rooms_info` from src/lib.rs: map every joined room to a
`RoomWithCachedInfo` and sort with the source's comparator (`sort_by` is a
stable sort, modelled by `List.mergeSort`).  The client is modelled by its
list of joined rooms. -/
def get_rooms_info (client : List Room) : List RoomWithCachedInfo :=
  (client.map mkRoomWithCachedInfo).mergeSort roomLe

----------------------------------------------------------------
--  Identifier resolution                                      --
----------------------------------------------------------------

/-- `RoomIndexRetrievalError` from src/export.rs. -/
inductive RoomIndexRetrievalError where
  | MultipleRoomsWithSpecifiedName (ids : List String)
  | NoRoomsWithSpecifiedName
deriving DecidableEq

/-- Predicate of the first `position` call: `&room_info.id == identifier`. -/
def idMatches (identifier : String) (room_info : RoomWithCachedInfo) : Bool :=
  room_info.id == identifier

/-- Predicate of the second `position` call:
`room_info.canonical_alias.as_ref().is_some_and(|alias| alias == identifier)`. -/
def canonicalAliasMatches (identifier : String) (room_info : RoomWithCachedInfo) : Bool :=
  room_info.canonical_alias.any (· == identifier)

/-- Predicate of the third `position` call:
`room_info.alt_aliases.iter().any(|alias| alias == identifier)`. -/
def altAliasMatches (identifier : String) (room_info : RoomWithCachedInfo) : Bool :=
  room_info.alt_aliases.any (· == identifier)

/-- Predicate of the name-matching fallback:
`room_info.name.as_ref().is_some_and(|name| name == identifier)`. -/
def nameMatches (identifier : String) (room_info : RoomWithCachedInfo) : Bool :=
  room_info.name.any (· == identifier)

/-- `get_room_index_by_identifier` from src/export.rs: try an exact id match,
then an exact canonical-alias match, then an exact alt-alias match, then fall
back to display-name matching (0 matches: not found, 1 match: its index,
more: ambiguous, carrying the matching rooms' ids).  The `unwrap` in the
1-match arm is modelled by `getD 0`; it is unreachable there. -/
def get_room_index_by_identifier (rooms_info : List RoomWithCachedInfo) (identifier : String) :
    Except RoomIndexRetrievalError Nat :=
  match rooms_info.findIdx? (idMatches identifier) with
  | some index => .ok index
  | none =>
  match rooms_info.findIdx? (canonicalAliasMatches identifier) with
  | some index => .ok index
  | none =>
  match rooms_info.findIdx? (altAliasMatches identifier) with
  | some index => .ok index
  | none =>
    match (rooms_info.filter (nameMatches identifier)).length with
    | 0 => .error .NoRoomsWithSpecifiedName
    | 1 => .ok ((rooms_info.findIdx? (nameMatches identifier)).getD 0)
    | _ => .error (.MultipleRoomsWithSpecifiedName
        ((rooms_info.filter (nameMatches identifier)).map (·.id)))

----------------------------------------------------------------
--  Filename derivation                                        --
----------------------------------------------------------------

/-- Rust `str::split_once(c)` on the character list: split at the first
occurrence of `c`, `none` when `c` does not occur. -/
def splitOnceAux (c : Char) : List Char → Option (List Char × List Char)
  | [] => none
  | x :: xs => if x = c then some ([], xs) else (splitOnceAux c xs).map (fun p => (x :: p.1, p.2))

/-- Rust `str::split_once(c)` on strings. -/
def splitOnce (s : String) (c : Char) : Option (String × String) :=
  (splitOnceAux c s.data).map (fun p => (String.mk p.1, String.mk p.2))

/-- `format_export_filename` from src/export.rs.  The source `unwrap`s the
results of `split_once(':')`; a `none` result models that panic. -/
def format_export_filename (room_info : RoomWithCachedInfo) : Option String :=
  match splitOnce room_info.id ':' with
  | none => none
  | some (nonserver_id_component, server) =>
    match room_info.name, room_info.canonical_alias with
    | some name, some anAlias =>
      (splitOnce anAlias ':').map (fun p =>
        name ++ " [" ++ p.1 ++ ", " ++ nonserver_id_component ++ ", " ++ server ++ "]")
    | some name, none =>
      some (name ++ " [" ++ nonserver_id_component ++ ", " ++ server ++ "]")
    | none, some anAlias =>
      (splitOnce anAlias ':').map (fun p =>
        p.1 ++ " [" ++ nonserver_id_component ++ ", " ++ server ++ "]")
    | none, none =>
      some (nonserver_id_component ++ " [" ++ server ++ "]")

----------------------------------------------------------------
--  Timestamp formatting                                       --
----------------------------------------------------------------

/-- Left-pad a decimal string with zeros to the given width. -/
def zeroPad (width : Nat) (s : String) : String :=
  String.mk (List.replicate (width - s.length) '0') ++ s

/-- `DateTime::from_timestamp_millis(t).to_rfc3339_opts(SecondsFormat::Millis, true)`
for a non-negative millisecond timestamp: proleptic-Gregorian civil date (via
the standard days-to-civil algorithm) and time of day, printed as an ISO-8601
UTC string with millisecond precision. -/
def timestampString (millis : Nat) : String :=
  let days := millis / 86400000
  let msOfDay := millis % 86400000
  let hh := msOfDay / 3600000
  let mm := msOfDay % 3600000 / 60000
  let ss := msOfDay % 60000 / 1000
  let ms := msOfDay % 1000
  let z := days + 719468
  let era := z / 146097
  let doe := z % 146097
  let yoe := (doe - doe / 1460 + doe / 36524 - doe / 146097) / 365
  let y := yoe + era * 400
  let doy := doe - (365 * yoe + yoe / 4 - yoe / 100)
  let mp := (5 * doy + 2) / 153
  let d := doy - (153 * mp + 2) / 5 + 1
  let m := if mp < 10 then mp + 3 else mp - 9
  let year := if m ≤ 2 then y + 1 else y
  zeroPad 4 (toString year) ++ "-" ++ zeroPad 2 (toString m) ++ "-" ++ zeroPad 2 (toString d) ++
    "T" ++ zeroPad 2 (toString hh) ++ ":" ++ zeroPad 2 (toString mm) ++ ":" ++
    zeroPad 2 (toString ss) ++ "." ++ zeroPad 3 (toString ms) ++ "Z"

----------------------------------------------------------------
--  Event rendering                                            --
----------------------------------------------------------------

/-- `messages_to_json` from src/export.rs: re-serialize every event's raw
payload verbatim into one JSON array document (the exact pretty-printing is
irrelevant to the properties proved here; what matters is that it is a pure
function of the raw payloads, in batch order, with no interpretation). -/
def messages_to_json (events : List RawEvent) : String :=
  "[" ++ String.intercalate "," (events.map (·.raw)) ++ "]"

/-- The display-name cache of `messages_to_txt`
(`HashMap<String, Option<String>>`), modelled as an association list where an
insert prepends (later entries shadow; the code only inserts absent keys). -/
def cacheLookup (cache : List (String × Option String)) (user_id : String) :
    Option (Option String) :=
  (cache.find? (fun p => p.1 == user_id)).map (·.2)

/-- One iteration of the `for event in events` loop of `messages_to_txt`:
given the cache so far, produce the rendered line (with its trailing line
break), the updated cache, and the list of senders for which a
`get_member_no_sync` membership lookup was performed (the instrumentation
used to state the cache invariants).  Mirrors src/export.rs lines 91-140:
an undeserializable event yields the sentinel line and leaves the cache
untouched; on a cache miss the member is looked up, and the result is
cached only when the member was found. -/
def renderEvent (room_info : RoomWithCachedInfo) (cache : List (String × Option String))
    (event : RawEvent) : String × List (String × Option String) × List String :=
  match event.parsed with
  | none => ("[Message skipped due to deserialization failure]\n", cache, [])
  | some event_deserialized =>
    let event_timestamp_string_representation :=
      timestampString event_deserialized.origin_server_ts
    let event_sender_id_string := event_deserialized.sender
    let resolved :=
      match cacheLookup cache event_sender_id_string with
      | some display_name_option => (display_name_option, cache, ([] : List String))
      | none =>
        match get_member_no_sync room_info.room event_sender_id_string with
        | some display_name =>
          (display_name, (event_sender_id_string, display_name) :: cache,
            [event_sender_id_string])
        | none => (none, cache, [event_sender_id_string])
    let event_sender_string_representation :=
      match resolved.1 with
      | some display_name => display_name ++ " (" ++ event_sender_id_string ++ ")"
      | none => event_sender_id_string
    let event_stringified :=
      match event_deserialized.event with
      | .messageLike e =>
        match e with
        | .roomMessage original =>
          match original with
          | some msgtype =>
            match msgtype with
            | .emote body => "[" ++ event_timestamp_string_representation ++ "] " ++
                event_sender_string_representation ++ ": *" ++ body ++ "*"
            | .notice body => "[" ++ event_timestamp_string_representation ++ "] " ++
                event_sender_string_representation ++ ": [" ++ body ++ "]"
            | .text body => "[" ++ event_timestamp_string_representation ++ "] " ++
                event_sender_string_representation ++ ": " ++ body
            | .otherMsgtype => "[Placeholder message]"
          | none => "[Placeholder redacted message]"
        | .otherMessageLike => "[Placeholder message-like]"
      | .state => "[Placeholder state-like]"
    (event_stringified ++ "\n", resolved.2.1, resolved.2.2)

/-- The full event loop of `messages_to_txt`: renders the events in order,
threading the display-name cache through, concatenating the rendered lines,
and concatenating the per-event membership-lookup logs. -/
def messagesToTxtGo (room_info : RoomWithCachedInfo) (events : List RawEvent)
    (cache : List (String × Option String)) :
    String × List (String × Option String) × List String :=
  match events with
  | [] => ("", cache, [])
  | event :: rest =>
    let step := renderEvent room_info cache event
    let remaining := messagesToTxtGo room_info rest step.2.1
    (step.1 ++ remaining.1, remaining.2.1, step.2.2 ++ remaining.2.2)

/-- `messages_to_txt` from src/export.rs: the room's readable document,
starting from an empty display-name cache. -/
def messages_to_txt (events : List RawEvent) (room_info : RoomWithCachedInfo) : String :=
  (messagesToTxtGo room_info events []).1

----------------------------------------------------------------
--  History pagination                                         --
----------------------------------------------------------------

/-- A `Messages` response from `room.messages`: a page of events and the
continuation cursor (`end`), here a plain index into the room's history. -/
structure Messages where
  chunk : List RawEvent
  endToken : Option Nat
deriving DecidableEq

/-- `room.messages(MessagesOptions::forward().from(from).limit(limit))`:
serve the next `limit` events of the room's history starting at the cursor
(`none` = start of history), returning the continuation cursor pointing past
the served events; fails when the room's fault model says the request at this
position fails. -/
def roomMessages (room : Room) (fromToken : Option Nat) (limit : Nat) :
    Except String Messages :=
  let start := fromToken.getD 0
  match room.failAt with
  | some k =>
    if k ≤ start then .error "page fetch failed"
    else .ok ⟨(room.history.drop start).take limit,
      some (start + ((room.history.drop start).take limit).length)⟩
  | none => .ok ⟨(room.history.drop start).take limit,
      some (start + ((room.history.drop start).take limit).length)⟩

/-- The pagination loop of `export` (src/export.rs lines 175-189): request
pages of fixed size 1000, starting with no cursor, appending every returned
event to the accumulator and following the returned end cursor, until a page
returns strictly fewer than 1000 events; a failed page fetch aborts with the
error (the source's `?`). -/
def fetchAllEvents (room : Room) (events : List RawEvent) (last_end_token : Option Nat) :
    Except String (List RawEvent) :=
  match h1 : roomMessages room last_end_token 1000 with
  | .error e => .error e
  | .ok messages =>
    if h2 : messages.chunk.length < 1000 then .ok (events ++ messages.chunk)
    else fetchAllEvents room (events ++ messages.chunk) messages.endToken
termination_by room.history.length - last_end_token.getD 0
decreasing_by
  unfold roomMessages at h1
  rcases hf : room.failAt with _ | k
  · rw [hf] at h1
    simp only at h1
    cases h1
    simp only [List.length_take, List.length_drop, not_lt] at h2
    simp only [Option.getD_some, List.length_take, List.length_drop]
    omega
  · rw [hf] at h1
    simp only at h1
    split at h1
    · simp at h1
    · cases h1
      simp only [List.length_take, List.length_drop, not_lt] at h2
      simp only [Option.getD_some, List.length_take, List.length_drop]
      omega

----------------------------------------------------------------
--  Export orchestrator                                        --
----------------------------------------------------------------

/-- `ExportOutputFormat` from src/export.rs. -/
inductive ExportOutputFormat where
  | Json
  | Txt
deriving DecidableEq

/-- The `for room_identifier in rooms` loop of `export` (src/export.rs lines
159-205), modelled as a pure function from the pre-built directory to the
list of written files (filename, contents) in write order, together with the
run's result.  A resolution failure prints a diagnostic and continues with
the next identifier; a page-fetch failure propagates out of `export` via `?`,
ending the run (files already written remain on disk, so they are kept in
the returned list); a `split_once` panic in filename derivation likewise ends
the run. -/
def exportRooms (accessible_rooms_info : List RoomWithCachedInfo) (rooms : List String)
    (formats : List ExportOutputFormat) :
    List (String × String) × Except String Unit :=
  match rooms with
  | [] => ([], .ok ())
  | room_identifier :: rest =>
    match get_room_index_by_identifier accessible_rooms_info room_identifier with
    | .error _ => exportRooms accessible_rooms_info rest formats
    | .ok index =>
      let room_to_export_info := accessible_rooms_info.getD index default
      match fetchAllEvents room_to_export_info.room [] none with
      | .error e => ([], .error e)
      | .ok events =>
        match format_export_filename room_to_export_info with
        | none => ([], .error "split_once panicked in format_export_filename")
        | some base_output_filename =>
          let json_files :=
            if formats.contains ExportOutputFormat.Json then
              [(base_output_filename ++ ".json", messages_to_json events)]
            else []
          let txt_files :=
            if formats.contains ExportOutputFormat.Txt then
              [(base_output_filename ++ ".txt", messages_to_txt events room_to_export_info)]
            else []
          let remaining := exportRooms accessible_rooms_info rest formats
          (json_files ++ txt_files ++ remaining.1, remaining.2)

/-- `export` from src/export.rs (the output-directory handling is filesystem
I/O outside the model; filenames here are the per-room stems plus
extension): build the directory once, then run the room loop. -/
def exportRun (client : List Room) (rooms : List String)
    (formats : List ExportOutputFormat) :
    List (String × String) × Except String Unit :=
  exportRooms (get_rooms_info client) rooms formats

----------------------------------------------------------------
--  Concrete fixtures used by counterexamples and witnesses    --
----------------------------------------------------------------

/-- The room of the spec's filename-derivation example: name `"Team"`,
canonical alias `"#team:example.org"`, id `"!abc123:example.org"`. -/
def teamRoom : Room :=
  ⟨"!abc123:example.org", some "Team", some "#team:example.org", [], [], none, []⟩

/-- Directory entry of `teamRoom`. -/
def teamRoomInfo : RoomWithCachedInfo := mkRoomWithCachedInfo teamRoom

/-- A room whose very first history page fetch fails (`failAt = some 0`). -/
def roomFailing : Room :=
  ⟨"!a:x", none, none, [],
    [⟨"1", some ⟨0, "@u:x", .messageLike (.roomMessage (some (.text "lost")))⟩⟩],
    some 0, []⟩

/-- A healthy room with one text message in its history. -/
def roomHealthy : Room :=
  ⟨"!b:x", none, none, [],
    [⟨"2", some ⟨0, "@u:x", .messageLike (.roomMessage (some (.text "kept")))⟩⟩],
    none, []⟩

/-- A two-room client whose first room (by directory order) fails on fetch. -/
def clientFailFirst : List Room := [roomFailing, roomHealthy]

/-- A named room (for the directory-ordering counterexample). -/
def roomNamedA : Room := ⟨"!n:x", some "A", none, [], [], none, []⟩

/-- An unnamed room with an id sorting after the named room's name. -/
def roomUnnamedB : Room := ⟨"!b:x", none, none, [], [], none, []⟩

/-- A client with one named and one unnamed room. -/
def clientNamedUnnamed : List Room := [roomNamedA, roomUnnamedB]

/-- A room with no cached members, used as a neutral render context. -/
def plainRoom : Room := ⟨"!room:example.org", none, none, [], [], none, []⟩

/-- Directory entry of `plainRoom`. -/
def plainRoomInfo : RoomWithCachedInfo := mkRoomWithCachedInfo plainRoom

/-- A room with three events in history, used as a pagination witness. -/
def roomPag : Room :=
  ⟨"!p:x", none, none, [],
    [⟨"1", none⟩, ⟨"2", none⟩, ⟨"3", none⟩],
    none, []⟩

/-- A text event with a given timestamp, sender and body. -/
def textEvent (ts : Nat) (sender body : String) : RawEvent :=
  ⟨"", some ⟨ts, sender, .messageLike (.roomMessage (some (.text body)))⟩⟩

/-- Two distinct rooms sharing the display name "Dup". -/
def dupRoom1 : Room := ⟨"!d1:x", some "Dup", none, [], [], none, []⟩

/-- Second room sharing the display name "Dup". -/
def dupRoom2 : Room := ⟨"!d2:x", some "Dup", none, [], [], none, []⟩

----------------------------------------------------------------
--  Supporting lemmas                                          --
----------------------------------------------------------------

theorem splitOnceAux_isSome_iff (c : Char) (l : List Char) :
    (splitOnceAux c l).isSome = true ↔ c ∈ l := by
  induction l with
  | nil => simp [splitOnceAux]
  | cons x xs ih =>
    simp only [splitOnceAux]
    split
    · rename_i hx
      subst hx
      simp
    · rename_i hx
      rw [List.mem_cons]
      have hmap : ((splitOnceAux c xs).map (fun p => (x :: p.1, p.2))).isSome =
          (splitOnceAux c xs).isSome := by
        cases splitOnceAux c xs <;> rfl
      rw [hmap, ih]
      constructor
      · exact Or.inr
      · rintro (h | h)
        · exact absurd h.symm hx
        · exact h

theorem idMatches_iff (identifier : String) (r : RoomWithCachedInfo) :
    idMatches identifier r = true ↔ r.id = identifier := by
  simp [idMatches]

theorem canonicalAliasMatches_iff (identifier : String) (r : RoomWithCachedInfo) :
    canonicalAliasMatches identifier r = true ↔ r.canonical_alias = some identifier := by
  unfold canonicalAliasMatches
  cases r.canonical_alias <;> simp

theorem altAliasMatches_iff (identifier : String) (r : RoomWithCachedInfo) :
    altAliasMatches identifier r = true ↔ identifier ∈ r.alt_aliases := by
  unfold altAliasMatches
  rw [List.any_eq_true]
  constructor
  · rintro ⟨x, hx, hxe⟩
    rw [beq_iff_eq] at hxe
    exact hxe ▸ hx
  · intro h
    exact ⟨identifier, h, beq_self_eq_true identifier⟩

theorem nameMatches_iff (identifier : String) (r : RoomWithCachedInfo) :
    nameMatches identifier r = true ↔ r.name = some identifier := by
  unfold nameMatches
  cases r.name <;> simp

/-- Exact-identifier match: the identifier equals the entry's id, its
canonical alias, or one of its alt aliases. -/
def exactMatch (r : RoomWithCachedInfo) (identifier : String) : Prop :=
  r.id = identifier ∨ r.canonical_alias = some identifier ∨ identifier ∈ r.alt_aliases

instance (r : RoomWithCachedInfo) (identifier : String) : Decidable (exactMatch r identifier) := by
  unfold exactMatch
  exact inferInstance

theorem isSome_optionMap {α β : Type} (f : α → β) (o : Option α) :
    (o.map f).isSome = o.isSome := by
  cases o <;> rfl

theorem splitOnce_isSome_iff (s : String) (c : Char) :
    (splitOnce s c).isSome = true ↔ c ∈ s.data := by
  unfold splitOnce
  rw [isSome_optionMap, splitOnceAux_isSome_iff]

----------------------------------------------------------------
--  C10: totality of filename derivation                       --
----------------------------------------------------------------

/-- C10: `format_export_filename` returns a filename stem exactly when the
room's id contains at least one ':' character and, when a canonical alias is
present, the alias also contains one; in particular, for an id with no ':'
the `split_once(':').unwrap()` panics (modelled by `none`). -/
theorem format_export_filename_total_iff (r : RoomWithCachedInfo) :
    (format_export_filename r).isSome = true ↔
      (':' ∈ r.id.data ∧ ∀ a, r.canonical_alias = some a → ':' ∈ a.data) := by
  unfold format_export_filename
  cases hid : splitOnce r.id ':' with
  | none =>
    have hnot : ¬ ':' ∈ r.id.data := by
      rw [← splitOnce_isSome_iff (c := ':'), hid]
      simp
    simp [hnot]
  | some p =>
    obtain ⟨idl, srv⟩ := p
    have hin : ':' ∈ r.id.data := by
      rw [← splitOnce_isSome_iff (c := ':'), hid]
      rfl
    cases hn : r.name <;> cases hca : r.canonical_alias
    · simp [hin]
    · rename_i a
      rw [isSome_optionMap, splitOnce_isSome_iff]
      simp [hin]
    · simp [hin]
    · rename_i n a
      rw [isSome_optionMap, splitOnce_isSome_iff]
      simp [hin]

----------------------------------------------------------------
--  C6: filename stems                                         --
----------------------------------------------------------------

/-- C6 counterexample: the Team room's actual stem keeps the '#' and '!'
sigils (`split_once(':')` keeps everything before the first colon), so the
claimed stem `"Team [team, abc123, example.org]"` is not produced. -/
theorem format_export_filename_team_cex :
    format_export_filename teamRoomInfo = some "Team [#team, !abc123, example.org]" ∧
      format_export_filename teamRoomInfo ≠ some "Team [team, abc123, example.org]" := by
  constructor
  · decide
  · decide

/-- C6 (amended): the four filename-stem shapes, where each "localpart" is
the full prefix of the id/alias before its first ':' (retaining the leading
'!' or '#' sigil). -/
theorem format_export_filename_cases (r : RoomWithCachedInfo) (idLocal server : String)
    (hid : splitOnce r.id ':' = some (idLocal, server)) :
    (∀ name anAlias aliasLocal aliasRest, r.name = some name →
        r.canonical_alias = some anAlias →
        splitOnce anAlias ':' = some (aliasLocal, aliasRest) →
        format_export_filename r =
          some (name ++ " [" ++ aliasLocal ++ ", " ++ idLocal ++ ", " ++ server ++ "]")) ∧
    (∀ name, r.name = some name → r.canonical_alias = none →
        format_export_filename r =
          some (name ++ " [" ++ idLocal ++ ", " ++ server ++ "]")) ∧
    (∀ anAlias aliasLocal aliasRest, r.name = none → r.canonical_alias = some anAlias →
        splitOnce anAlias ':' = some (aliasLocal, aliasRest) →
        format_export_filename r =
          some (aliasLocal ++ " [" ++ idLocal ++ ", " ++ server ++ "]")) ∧
    (r.name = none → r.canonical_alias = none →
        format_export_filename r = some (idLocal ++ " [" ++ server ++ "]")) := by
  refine ⟨?_, ?_, ?_, ?_⟩
  · intro name anAlias aliasLocal aliasRest hn hca hsp
    simp [format_export_filename, hid, hn, hca, hsp]
  · intro name hn hca
    simp [format_export_filename, hid, hn, hca]
  · intro anAlias aliasLocal aliasRest hn hca hsp
    simp [format_export_filename, hid, hn, hca, hsp]
  · intro hn hca
    simp [format_export_filename, hid, hn, hca]

/-- C6 witness: the amended shapes applied to the Team room. -/
theorem format_export_filename_cases_witness :
    format_export_filename teamRoomInfo =
      some ("Team" ++ " [" ++ "#team" ++ ", " ++ "!abc123" ++ ", " ++ "example.org" ++ "]") :=
  (format_export_filename_cases teamRoomInfo "!abc123" "example.org" (by decide)).1
    "Team" "#team:example.org" "#team" "example.org" rfl rfl (by decide)

----------------------------------------------------------------
--  C1: exact identifier matches resolve, with precedence      --
----------------------------------------------------------------

/-- C1: when the identifier exactly equals some entry's id, canonical alias,
or alt alias, resolution returns `Ok` with the index of an entry so matched
— regardless of any display-name collisions — and id matches take precedence
over canonical-alias matches, which take precedence over alt-alias
matches. -/
theorem resolver_exact_precedence (rooms_info : List RoomWithCachedInfo) (identifier : String)
    (h : ∃ r ∈ rooms_info, exactMatch r identifier) :
    ∃ i, get_room_index_by_identifier rooms_info identifier = .ok i ∧
      ∃ hi : i < rooms_info.length,
        exactMatch (rooms_info.get ⟨i, hi⟩) identifier ∧
        ((∃ r ∈ rooms_info, r.id = identifier) →
          (rooms_info.get ⟨i, hi⟩).id = identifier) ∧
        ((∀ r ∈ rooms_info, r.id ≠ identifier) →
          (∃ r ∈ rooms_info, r.canonical_alias = some identifier) →
          (rooms_info.get ⟨i, hi⟩).canonical_alias = some identifier) := by
  by_cases hid : ∃ r ∈ rooms_info, r.id = identifier
  · obtain ⟨r0, hr0, hr0id⟩ := hid
    have hex : ∃ x ∈ rooms_info, idMatches identifier x = true :=
      ⟨r0, hr0, (idMatches_iff identifier r0).2 hr0id⟩
    have hfind := List.findIdx?_eq_some_of_exists hex
    have hlt : rooms_info.findIdx (idMatches identifier) < rooms_info.length :=
      List.findIdx_lt_length_of_exists hex
    have hat : idMatches identifier (rooms_info.get ⟨_, hlt⟩) = true := by
      simpa [List.get_eq_getElem] using
        @List.findIdx_getElem _ (idMatches identifier) rooms_info hlt
    have hatid := (idMatches_iff _ _).1 hat
    refine ⟨_, ?_, hlt, Or.inl hatid, fun _ => hatid, ?_⟩
    · unfold get_room_index_by_identifier
      rw [hfind]
    · intro hno _
      exact absurd hr0id (hno r0 hr0)
  · have hnone1 : rooms_info.findIdx? (idMatches identifier) = none := by
      rw [List.findIdx?_eq_none_iff]
      intro x hx
      cases hpx : idMatches identifier x
      · rfl
      · exact absurd ⟨x, hx, (idMatches_iff _ _).1 hpx⟩ hid
    by_cases hca : ∃ r ∈ rooms_info, r.canonical_alias = some identifier
    · obtain ⟨r0, hr0, hr0ca⟩ := hca
      have hex : ∃ x ∈ rooms_info, canonicalAliasMatches identifier x = true :=
        ⟨r0, hr0, (canonicalAliasMatches_iff identifier r0).2 hr0ca⟩
      have hfind := List.findIdx?_eq_some_of_exists hex
      have hlt : rooms_info.findIdx (canonicalAliasMatches identifier) < rooms_info.length :=
        List.findIdx_lt_length_of_exists hex
      have hat : canonicalAliasMatches identifier (rooms_info.get ⟨_, hlt⟩) = true := by
        simpa [List.get_eq_getElem] using
          @List.findIdx_getElem _ (canonicalAliasMatches identifier) rooms_info hlt
      have hatca := (canonicalAliasMatches_iff _ _).1 hat
      refine ⟨_, ?_, hlt, Or.inr (Or.inl hatca), ?_, fun _ _ => hatca⟩
      · unfold get_room_index_by_identifier
        rw [hnone1, hfind]
      · intro hex2
        exact absurd hex2 hid
    · have hnone2 : rooms_info.findIdx? (canonicalAliasMatches identifier) = none := by
        rw [List.findIdx?_eq_none_iff]
        intro x hx
        cases hpx : canonicalAliasMatches identifier x
        · rfl
        · exact absurd ⟨x, hx, (canonicalAliasMatches_iff _ _).1 hpx⟩ hca
      obtain ⟨r0, hr0, hr0m⟩ := h
      have hr0alt : identifier ∈ r0.alt_aliases := by
        rcases hr0m with hm | hm | hm
        · exact absurd ⟨r0, hr0, hm⟩ hid
        · exact absurd ⟨r0, hr0, hm⟩ hca
        · exact hm
      have hex : ∃ x ∈ rooms_info, altAliasMatches identifier x = true :=
        ⟨r0, hr0, (altAliasMatches_iff identifier r0).2 hr0alt⟩
      have hfind := List.findIdx?_eq_some_of_exists hex
      have hlt : rooms_info.findIdx (altAliasMatches identifier) < rooms_info.length :=
        List.findIdx_lt_length_of_exists hex
      have hat : altAliasMatches identifier (rooms_info.get ⟨_, hlt⟩) = true := by
        simpa [List.get_eq_getElem] using
          @List.findIdx_getElem _ (altAliasMatches identifier) rooms_info hlt
      have hatalt := (altAliasMatches_iff _ _).1 hat
      refine ⟨_, ?_, hlt, Or.inr (Or.inr hatalt), ?_, ?_⟩
      · unfold get_room_index_by_identifier
        rw [hnone1, hnone2, hfind]
      · intro hex2
        exact absurd hex2 hid
      · intro _ hex2
        exact absurd hex2 hca

/-- C1 witness: a one-entry directory resolved by exact room id. -/
theorem resolver_exact_precedence_witness :
    ∃ i, get_room_index_by_identifier [teamRoomInfo] "!abc123:example.org" = .ok i ∧
      ∃ hi : i < [teamRoomInfo].length,
        exactMatch ([teamRoomInfo].get ⟨i, hi⟩) "!abc123:example.org" ∧
        ((∃ r ∈ [teamRoomInfo], r.id = "!abc123:example.org") →
          ([teamRoomInfo].get ⟨i, hi⟩).id = "!abc123:example.org") ∧
        ((∀ r ∈ [teamRoomInfo], r.id ≠ "!abc123:example.org") →
          (∃ r ∈ [teamRoomInfo], r.canonical_alias = some "!abc123:example.org") →
          ([teamRoomInfo].get ⟨i, hi⟩).canonical_alias = some "!abc123:example.org") :=
  resolver_exact_precedence [teamRoomInfo] "!abc123:example.org" (by decide)

----------------------------------------------------------------
--  C4: name-based fallback resolution                         --
----------------------------------------------------------------

/-- C4: with no exact id/canonical-alias/alt-alias match, resolution falls
back to display names: zero name matches yield `NoRoomsWithSpecifiedName`,
exactly one yields `Ok` at that entry's index, and two or more yield
`MultipleRoomsWithSpecifiedName` carrying exactly the matching entries'
ids, in directory order. -/
theorem resolver_name_fallback (rooms_info : List RoomWithCachedInfo) (identifier : String)
    (h : ∀ r ∈ rooms_info, ¬ exactMatch r identifier) :
    ((rooms_info.filter (nameMatches identifier)).length = 0 →
      get_room_index_by_identifier rooms_info identifier =
        .error .NoRoomsWithSpecifiedName) ∧
    ((rooms_info.filter (nameMatches identifier)).length = 1 →
      ∃ i, get_room_index_by_identifier rooms_info identifier = .ok i ∧
        ∃ hi : i < rooms_info.length,
          (rooms_info.get ⟨i, hi⟩).name = some identifier ∧
          rooms_info.filter (nameMatches identifier) = [rooms_info.get ⟨i, hi⟩]) ∧
    (2 ≤ (rooms_info.filter (nameMatches identifier)).length →
      get_room_index_by_identifier rooms_info identifier =
        .error (.MultipleRoomsWithSpecifiedName
          ((rooms_info.filter (nameMatches identifier)).map (·.id)))) := by
  have hnone1 : rooms_info.findIdx? (idMatches identifier) = none := by
    rw [List.findIdx?_eq_none_iff]
    intro x hx
    cases hpx : idMatches identifier x
    · rfl
    · exact absurd (Or.inl ((idMatches_iff _ _).1 hpx)) (h x hx)
  have hnone2 : rooms_info.findIdx? (canonicalAliasMatches identifier) = none := by
    rw [List.findIdx?_eq_none_iff]
    intro x hx
    cases hpx : canonicalAliasMatches identifier x
    · rfl
    · exact absurd (Or.inr (Or.inl ((canonicalAliasMatches_iff _ _).1 hpx))) (h x hx)
  have hnone3 : rooms_info.findIdx? (altAliasMatches identifier) = none := by
    rw [List.findIdx?_eq_none_iff]
    intro x hx
    cases hpx : altAliasMatches identifier x
    · rfl
    · exact absurd (Or.inr (Or.inr ((altAliasMatches_iff _ _).1 hpx))) (h x hx)
  refine ⟨?_, ?_, ?_⟩
  · intro h0
    simp only [get_room_index_by_identifier, hnone1, hnone2, hnone3, h0]
  · intro h1len
    obtain ⟨a, ha⟩ := List.length_eq_one.1 h1len
    have hamem : a ∈ rooms_info.filter (nameMatches identifier) := by
      rw [ha]
      exact List.mem_singleton_self a
    have hexname : ∃ x ∈ rooms_info, nameMatches identifier x = true :=
      ⟨a, (List.mem_filter.1 hamem).1, (List.mem_filter.1 hamem).2⟩
    have hfind := List.findIdx?_eq_some_of_exists hexname
    have hlt : rooms_info.findIdx (nameMatches identifier) < rooms_info.length :=
      List.findIdx_lt_length_of_exists hexname
    have hat : nameMatches identifier (rooms_info.get ⟨_, hlt⟩) = true := by
      simpa [List.get_eq_getElem] using
        @List.findIdx_getElem _ (nameMatches identifier) rooms_info hlt
    refine ⟨_, ?_, hlt, (nameMatches_iff _ _).1 hat, ?_⟩
    · simp only [get_room_index_by_identifier, hnone1, hnone2, hnone3, h1len, hfind,
        Option.getD_some]
    · have hmemi : rooms_info.get ⟨_, hlt⟩ ∈ rooms_info.filter (nameMatches identifier) :=
        List.mem_filter.2 ⟨List.get_mem _ _ _, hat⟩
      rw [ha] at hmemi ⊢
      rw [List.mem_singleton] at hmemi
      rw [hmemi]
  · intro h2
    obtain ⟨n, hn⟩ : ∃ n, (rooms_info.filter (nameMatches identifier)).length = n + 2 :=
      ⟨(rooms_info.filter (nameMatches identifier)).length - 2, by omega⟩
    simp only [get_room_index_by_identifier, hnone1, hnone2, hnone3, hn]

/-- C4 witness: two rooms named "Dup", no exact match, ambiguous by name. -/
theorem resolver_name_fallback_witness :
    get_room_index_by_identifier
        [mkRoomWithCachedInfo dupRoom1, mkRoomWithCachedInfo dupRoom2] "Dup" =
      .error (.MultipleRoomsWithSpecifiedName
        ((([mkRoomWithCachedInfo dupRoom1, mkRoomWithCachedInfo dupRoom2]).filter
          (nameMatches "Dup")).map (·.id))) :=
  (resolver_name_fallback [mkRoomWithCachedInfo dupRoom1, mkRoomWithCachedInfo dupRoom2]
    "Dup" (by decide)).2.2 (by decide)

----------------------------------------------------------------
--  C2: pagination completeness                                --
----------------------------------------------------------------

theorem roomMessages_ok {room : Room} {fromToken : Option Nat} {limit : Nat} {m : Messages}
    (h : roomMessages room fromToken limit = .ok m) :
    m.chunk = (room.history.drop (fromToken.getD 0)).take limit ∧
      m.endToken = some (fromToken.getD 0 + m.chunk.length) := by
  unfold roomMessages at h
  cases hf : room.failAt with
  | none =>
    rw [hf] at h
    simp only at h
    cases h
    exact ⟨rfl, rfl⟩
  | some k =>
    rw [hf] at h
    simp only at h
    split at h
    · simp at h
    · cases h
      exact ⟨rfl, rfl⟩

theorem roomMessages_noFail (room : Room) (hfail : room.failAt = none)
    (fromToken : Option Nat) (limit : Nat) :
    roomMessages room fromToken limit =
      .ok ⟨(room.history.drop (fromToken.getD 0)).take limit,
        some (fromToken.getD 0 + ((room.history.drop (fromToken.getD 0)).take limit).length)⟩ := by
  unfold roomMessages
  rw [hfail]

theorem fetchAllEvents_eq (room : Room) (events : List RawEvent) (tok : Option Nat) :
    fetchAllEvents room events tok =
      match roomMessages room tok 1000 with
      | .error e => .error e
      | .ok messages =>
        if messages.chunk.length < 1000 then .ok (events ++ messages.chunk)
        else fetchAllEvents room (events ++ messages.chunk) messages.endToken := by
  rw [fetchAllEvents]
  cases roomMessages room tok 1000 <;> rfl

theorem fetchAllEvents_complete (room : Room) (hfail : room.failAt = none) :
    ∀ events tok, fetchAllEvents room events tok =
      .ok (events ++ room.history.drop (tok.getD 0)) := by
  intro events tok
  induction events, tok using fetchAllEvents.induct room with
  | case1 events tok e herr =>
    rw [roomMessages_noFail room hfail] at herr
    simp at herr
  | case2 events tok messages hok hlt =>
    rw [fetchAllEvents_eq, hok]
    dsimp only
    rw [if_pos hlt]
    obtain ⟨hc, -⟩ := roomMessages_ok hok
    have hlen : (room.history.drop (tok.getD 0)).length ≤ 1000 := by
      rw [hc] at hlt
      simp only [List.length_take, List.length_drop] at hlt
      simp only [List.length_drop]
      omega
    rw [hc, List.take_of_length_le hlen]
  | case3 events tok messages hok hge ih =>
    rw [fetchAllEvents_eq, hok]
    dsimp only
    rw [if_neg hge, ih]
    obtain ⟨hc, he⟩ := roomMessages_ok hok
    have hlen1000 : messages.chunk.length = 1000 := by
      rw [hc]
      rw [hc] at hge
      simp only [List.length_take, List.length_drop, not_lt] at hge ⊢
      omega
    rw [he]
    simp only [Option.getD_some]
    rw [hlen1000, hc, List.append_assoc]
    congr 1
    have hdd : room.history.drop (tok.getD 0 + 1000) =
        (room.history.drop (tok.getD 0)).drop 1000 := by
      rw [List.drop_drop]
    rw [hdd, List.take_append_drop]

/-- C2: against a fault-free simulated room, the pagination loop of `export`
(fixed page size 1000, no initial cursor, each subsequent request resuming at
the previous page's end cursor, stopping exactly on a short page) assembles
precisely the room's full history, in server-delivery order, with no event
duplicated or dropped — in particular for histories of length 0, 1000, 1001
and 2000. -/
theorem pagination_complete (room : Room) (hfail : room.failAt = none) :
    fetchAllEvents room [] none = .ok room.history := by
  have h := fetchAllEvents_complete room hfail [] none
  simpa using h

/-- C2 witness: the pagination loop on a concrete three-event room. -/
theorem pagination_complete_witness :
    roomPag.failAt = none ∧ fetchAllEvents roomPag [] none = .ok roomPag.history :=
  ⟨rfl, pagination_complete roomPag rfl⟩

----------------------------------------------------------------
--  C7: readable rendering formats                             --
----------------------------------------------------------------

/-- C7: the Readable renderer maps each successfully interpreted event by
kind — text as `"[timestamp] sender: body"`, emote as
`"[timestamp] sender: *body*"`, notice as `"[timestamp] sender: [body]"`,
any other subtype, redacted messages, other message-like events and state
events as their placeholder lines — each line ending in one line break; and
deterministically, a text message `"hi"` from a sender with no cached display
name at epoch-millis 0 renders as
`"[1970-01-01T00:00:00.000Z] @user:example.org: hi\n"`. -/
theorem readable_render_formats (ts : Nat) (sender body raw : String) :
    messages_to_txt
        [⟨raw, some ⟨ts, sender, .messageLike (.roomMessage (some (.text body)))⟩⟩]
        plainRoomInfo =
      "[" ++ timestampString ts ++ "] " ++ sender ++ ": " ++ body ++ "\n" ∧
    messages_to_txt
        [⟨raw, some ⟨ts, sender, .messageLike (.roomMessage (some (.emote body)))⟩⟩]
        plainRoomInfo =
      "[" ++ timestampString ts ++ "] " ++ sender ++ ": *" ++ body ++ "*" ++ "\n" ∧
    messages_to_txt
        [⟨raw, some ⟨ts, sender, .messageLike (.roomMessage (some (.notice body)))⟩⟩]
        plainRoomInfo =
      "[" ++ timestampString ts ++ "] " ++ sender ++ ": [" ++ body ++ "]" ++ "\n" ∧
    messages_to_txt
        [⟨raw, some ⟨ts, sender, .messageLike (.roomMessage (some .otherMsgtype))⟩⟩]
        plainRoomInfo =
      "[Placeholder message]" ++ "\n" ∧
    messages_to_txt [⟨raw, some ⟨ts, sender, .messageLike (.roomMessage none)⟩⟩]
        plainRoomInfo =
      "[Placeholder redacted message]" ++ "\n" ∧
    messages_to_txt [⟨raw, some ⟨ts, sender, .messageLike .otherMessageLike⟩⟩]
        plainRoomInfo =
      "[Placeholder message-like]" ++ "\n" ∧
    messages_to_txt [⟨raw, some ⟨ts, sender, .state⟩⟩] plainRoomInfo =
      "[Placeholder state-like]" ++ "\n" ∧
    messages_to_txt
        [⟨"", some ⟨0, "@user:example.org", .messageLike (.roomMessage (some (.text "hi")))⟩⟩]
        plainRoomInfo =
      "[1970-01-01T00:00:00.000Z] @user:example.org: hi\n" := by
  refine ⟨?_, ?_, ?_, ?_, ?_, ?_, ?_, by decide⟩ <;>
    simp [messages_to_txt, messagesToTxtGo, renderEvent, cacheLookup, get_member_no_sync,
      plainRoomInfo, plainRoom, mkRoomWithCachedInfo, String.append_assoc]

----------------------------------------------------------------
--  C8: malformed events are skipped, not fatal                --
----------------------------------------------------------------

/-- C8: during one room's Readable render pass, an event whose raw payload
fails to deserialize contributes exactly one sentinel line, leaves the
display-name cache and lookup log untouched, and the remaining events are
rendered exactly as they would have been — one malformed event never aborts
the room's render. -/
theorem render_skips_malformed (room_info : RoomWithCachedInfo) (pre post : List RawEvent)
    (raw : String) (cache : List (String × Option String)) :
    messagesToTxtGo room_info (pre ++ ⟨raw, none⟩ :: post) cache =
      ((messagesToTxtGo room_info pre cache).1 ++
        ("[Message skipped due to deserialization failure]\n" ++
          (messagesToTxtGo room_info post (messagesToTxtGo room_info pre cache).2.1).1),
       (messagesToTxtGo room_info post (messagesToTxtGo room_info pre cache).2.1).2.1,
       (messagesToTxtGo room_info pre cache).2.2 ++
        (messagesToTxtGo room_info post (messagesToTxtGo room_info pre cache).2.1).2.2) := by
  induction pre generalizing cache with
  | nil =>
    simp [messagesToTxtGo, renderEvent]
  | cons e rest ih =>
    simp only [List.cons_append, messagesToTxtGo, List.append_eq]
    rw [ih]
    simp [String.append_assoc, List.append_assoc]

----------------------------------------------------------------
--  C5: directory ordering                                     --
----------------------------------------------------------------

theorem lexLe_total : ∀ a b : List Char, (lexLe a b || lexLe b a) = true := by
  intro a
  induction a with
  | nil => intro b; simp [lexLe]
  | cons c1 t1 ih =>
    intro b
    cases b with
    | nil => simp [lexLe]
    | cons c2 t2 =>
      simp only [lexLe]
      by_cases hc : c1 = c2
      · subst hc
        simp only [if_pos rfl]
        exact ih t2
      · rw [if_neg hc, if_neg (Ne.symm hc)]
        rcases lt_or_gt_of_ne hc with hlt | hgt
        · simp [hlt]
        · simp [hgt]

theorem lexLe_trans : ∀ a b c : List Char,
    lexLe a b = true → lexLe b c = true → lexLe a c = true := by
  intro a
  induction a with
  | nil => intro b c _ _; rfl
  | cons c1 t1 ih =>
    intro b c hab hbc
    cases b with
    | nil => simp [lexLe] at hab
    | cons c2 t2 =>
      cases c with
      | nil => simp [lexLe] at hbc
      | cons c3 t3 =>
        simp only [lexLe] at hab hbc ⊢
        by_cases h12 : c1 = c2
        · subst h12
          rw [if_pos rfl] at hab
          by_cases h13 : c1 = c3
          · subst h13
            rw [if_pos rfl] at hbc ⊢
            exact ih t2 t3 hab hbc
          · rw [if_neg h13] at hbc ⊢
            exact hbc
        · rw [if_neg h12] at hab
          simp only [decide_eq_true_eq] at hab
          by_cases h23 : c2 = c3
          · subst h23
            rw [if_neg h12]
            simp [hab]
          · rw [if_neg h23] at hbc
            simp only [decide_eq_true_eq] at hbc
            have hlt : c1 < c3 := lt_trans hab hbc
            rw [if_neg (ne_of_lt hlt)]
            simp [hlt]

theorem roomLe_trans : ∀ a b c : RoomWithCachedInfo,
    roomLe a b = true → roomLe b c = true → roomLe a c = true := by
  intro a b c hab hbc
  obtain ⟨id1, n1, ca1, al1, ro1⟩ := a
  obtain ⟨id2, n2, ca2, al2, ro2⟩ := b
  obtain ⟨id3, n3, ca3, al3, ro3⟩ := c
  simp only [roomLe] at hab hbc ⊢
  cases n1 <;> cases n2 <;> cases n3 <;>
    first
      | rfl
      | exact absurd hab Bool.false_ne_true
      | exact absurd hbc Bool.false_ne_true
      | exact lexLe_trans _ _ _ hab hbc
      | (cases ca1 <;> cases ca2 <;> cases ca3 <;>
          first
            | rfl
            | exact absurd hab Bool.false_ne_true
            | exact absurd hbc Bool.false_ne_true
            | exact lexLe_trans _ _ _ hab hbc)

theorem roomLe_total : ∀ a b : RoomWithCachedInfo, (roomLe a b || roomLe b a) = true := by
  intro a b
  obtain ⟨id1, n1, ca1, al1, ro1⟩ := a
  obtain ⟨id2, n2, ca2, al2, ro2⟩ := b
  simp only [roomLe]
  cases n1 <;> cases n2 <;>
    first
      | rfl
      | exact lexLe_total _ _
      | (cases ca1 <;> cases ca2 <;>
          first
            | rfl
            | exact lexLe_total _ _)

/-- C5 counterexample: with one named room (`"A"`) and one unnamed room, the
directory built by `get_rooms_info` puts the unnamed entry first, refuting
the claim that entries with a name come first. -/
theorem directory_order_cex :
    (get_rooms_info clientNamedUnnamed).map RoomWithCachedInfo.name = [none, some "A"] := by
  simp [get_rooms_info, clientNamedUnnamed, roomNamedA, roomUnnamedB, mkRoomWithCachedInfo,
    List.mergeSort, roomLe, lexLe]

/-- C5 (amended): `get_rooms_info` returns a permutation of the session's
rooms totally ordered so that unnamed entries come first — those with
neither name nor canonical alias sorted by id, then the remaining unnamed
entries sorted by canonical alias — and entries with a name come last,
sorted lexicographically by name. -/
theorem directory_order (client : List Room) :
    (get_rooms_info client).Perm (client.map mkRoomWithCachedInfo) ∧
    (get_rooms_info client).Pairwise (fun r1 r2 =>
      match r1.name, r2.name with
      | some n1, some n2 => lexLe n1.data n2.data = true
      | some _, none => False
      | none, some _ => True
      | none, none =>
        match r1.canonical_alias, r2.canonical_alias with
        | some a1, some a2 => lexLe a1.data a2.data = true
        | some _, none => False
        | none, some _ => True
        | none, none => lexLe r1.id.data r2.id.data = true) := by
  constructor
  · exact List.mergeSort_perm _ _
  · have hs := List.sorted_mergeSort roomLe_trans roomLe_total (client.map mkRoomWithCachedInfo)
    refine hs.imp ?_
    intro a b hab
    obtain ⟨id1, n1, ca1, al1, ro1⟩ := a
    obtain ⟨id2, n2, ca2, al2, ro2⟩ := b
    simp only [roomLe] at hab
    cases n1 <;> cases n2 <;> cases ca1 <;> cases ca2 <;>
      first
        | trivial
        | exact absurd hab Bool.false_ne_true
        | exact hab

----------------------------------------------------------------
--  C9: display-name cache behaviour                           --
----------------------------------------------------------------

theorem cacheLookup_nil (s : String) : cacheLookup [] s = none := rfl

theorem cacheLookup_cons (t : String) (dn : Option String)
    (cache : List (String × Option String)) (s : String) :
    cacheLookup ((t, dn) :: cache) s =
      if t == s then some dn else cacheLookup cache s := by
  unfold cacheLookup
  cases h : (t == s) with
  | true =>
    rw [List.find?_cons_of_pos _ (by simpa using h)]
    simp [h]
  | false =>
    rw [List.find?_cons_of_neg _ (by simpa using h)]
    simp [h]

theorem cacheLookup_none_countP (cache : List (String × Option String)) (s : String)
    (h : cacheLookup cache s = none) :
    cache.countP (fun p => p.1 == s) = 0 := by
  rw [List.countP_eq_zero]
  intro a ha
  unfold cacheLookup at h
  rw [Option.map_eq_none'] at h
  exact List.find?_eq_none.1 h a ha

/-- C9 counterexample: a sender absent from the room's member list is looked
up once per event (twice here) and never cached. -/
theorem display_name_cache_cex :
    (messagesToTxtGo plainRoomInfo [textEvent 0 "@u:x" "a", textEvent 0 "@u:x" "b"] []).2.2 =
      ["@u:x", "@u:x"] ∧
    (messagesToTxtGo plainRoomInfo [textEvent 0 "@u:x" "a", textEvent 0 "@u:x" "b"] []).2.1 =
      [] := by
  constructor
  · decide
  · decide

theorem messagesToTxtGo_cache_spec (room_info : RoomWithCachedInfo) :
    ∀ (events : List RawEvent) (cache : List (String × Option String)),
      (∀ s v, cacheLookup cache s = some v →
        get_member_no_sync room_info.room s = some v) →
      ((∀ s v, cacheLookup cache s = some v →
          cacheLookup (messagesToTxtGo room_info events cache).2.1 s = some v) ∧
        (∀ s v, cacheLookup (messagesToTxtGo room_info events cache).2.1 s = some v →
          get_member_no_sync room_info.room s = some v) ∧
        (∀ s, ((messagesToTxtGo room_info events cache).2.1.countP
            (fun p => p.1 == s)) ≤ max (cache.countP (fun p => p.1 == s)) 1) ∧
        (∀ s, get_member_no_sync room_info.room s = none →
          (messagesToTxtGo room_info events cache).2.2.count s =
            events.countP (fun e => e.parsed.any (fun p => p.sender == s))) ∧
        (∀ s, get_member_no_sync room_info.room s ≠ none →
          (messagesToTxtGo room_info events cache).2.2.count s ≤
            (if cacheLookup cache s = none then 1 else 0)) ∧
        (∀ s v, get_member_no_sync room_info.room s = some v →
          0 < events.countP (fun e => e.parsed.any (fun p => p.sender == s)) →
          cacheLookup (messagesToTxtGo room_info events cache).2.1 s = some v)) := by
  intro events
  induction events with
  | nil =>
    intro cache hinv
    refine ⟨fun s v h => h, hinv, ?_, ?_, ?_, ?_⟩
    · intro s
      exact le_max_left _ _
    · intro s _
      rfl
    · intro s _
      simp [messagesToTxtGo]
    · intro s v _ hpos
      simp [List.countP_nil] at hpos
  | cons e rest ih =>
    intro cache hinv
    have hgo : messagesToTxtGo room_info (e :: rest) cache =
        ((renderEvent room_info cache e).1 ++
          (messagesToTxtGo room_info rest (renderEvent room_info cache e).2.1).1,
         (messagesToTxtGo room_info rest (renderEvent room_info cache e).2.1).2.1,
         (renderEvent room_info cache e).2.2 ++
          (messagesToTxtGo room_info rest (renderEvent room_info cache e).2.1).2.2) := rfl
    rcases hp : e.parsed with _ | p
    · -- undeserializable event: cache untouched, no lookup
      have hre : (renderEvent room_info cache e).2 = (cache, ([] : List String)) := by
        simp [renderEvent, hp]
      obtain ⟨ih1, ih2, ih3, ih4, ih5, ih6⟩ := ih cache hinv
      rw [hgo]
      simp only [hre]
      refine ⟨ih1, ih2, ih3, ?_, ?_, ?_⟩
      · intro s hs
        simp only [List.nil_append, List.countP_cons, hp, Option.any_none,
          Bool.false_eq_true, if_false]
        exact ih4 s hs
      · intro s hs
        simpa using ih5 s hs
      · intro s v hs hpos
        apply ih6 s v hs
        simpa [List.countP_cons, hp] using hpos
    · rcases hcl : cacheLookup cache p.sender with _ | dn
      · rcases hgm : get_member_no_sync room_info.room p.sender with _ | dn
        · -- cache miss, member not found: lookup logged, nothing cached
          have hre : (renderEvent room_info cache e).2 = (cache, [p.sender]) := by
            simp [renderEvent, hp, hcl, hgm]
          obtain ⟨ih1, ih2, ih3, ih4, ih5, ih6⟩ := ih cache hinv
          rw [hgo]
          simp only [hre]
          refine ⟨ih1, ih2, ih3, ?_, ?_, ?_⟩
          · intro s hs
            simp only [List.count_append, List.count_cons, List.count_nil,
              List.countP_cons, hp, Option.any_some]
            rw [ih4 s hs]
            by_cases hbe : (p.sender == s) = true
            · simp [hbe]
              omega
            · simp [hbe]
          · intro s hs
            have hne : (p.sender == s) = false := by
              cases hbe : (p.sender == s) with
              | false => rfl
              | true =>
                rw [beq_iff_eq] at hbe
                subst hbe
                exact absurd hgm hs
            simp only [List.count_append, List.count_cons, List.count_nil, hne,
              Bool.false_eq_true, if_false]
            simpa using ih5 s hs
          · intro s v hs hpos
            have hne : (p.sender == s) = false := by
              cases hbe : (p.sender == s) with
              | false => rfl
              | true =>
                rw [beq_iff_eq] at hbe
                subst hbe
                rw [hgm] at hs
                cases hs
            apply ih6 s v hs
            simpa [List.countP_cons, hp, hne] using hpos
        · -- cache miss, member found: lookup logged, entry cached
          have hre : (renderEvent room_info cache e).2 =
              ((p.sender, dn) :: cache, [p.sender]) := by
            simp [renderEvent, hp, hcl, hgm]
          have hinv' : ∀ u w, cacheLookup ((p.sender, dn) :: cache) u = some w →
              get_member_no_sync room_info.room u = some w := by
            intro u w hu
            rw [cacheLookup_cons] at hu
            by_cases hbe : (p.sender == u) = true
            · rw [if_pos hbe] at hu
              cases hu
              rw [beq_iff_eq] at hbe
              rw [← hbe]
              exact hgm
            · rw [if_neg hbe] at hu
              exact hinv u w hu
          obtain ⟨ih1, ih2, ih3, ih4, ih5, ih6⟩ := ih ((p.sender, dn) :: cache) hinv'
          rw [hgo]
          simp only [hre]
          refine ⟨?_, ih2, ?_, ?_, ?_, ?_⟩
          · intro s v hs
            have hne : (p.sender == s) = false := by
              cases hbe : (p.sender == s) with
              | false => rfl
              | true =>
                rw [beq_iff_eq] at hbe
                subst hbe
                rw [hcl] at hs
                cases hs
            apply ih1
            rw [cacheLookup_cons, if_neg (by simp [hne])]
            exact hs
          · intro s
            refine le_trans (ih3 s) ?_
            by_cases hbe : (p.sender == s) = true
            · have hzero : cache.countP (fun q => q.1 == s) = 0 := by
                rw [beq_iff_eq] at hbe
                subst hbe
                exact cacheLookup_none_countP cache p.sender hcl
              simp [List.countP_cons, hbe, hzero]
            · simp [List.countP_cons, hbe]
          · intro s hs
            have hne : (p.sender == s) = false := by
              cases hbe : (p.sender == s) with
              | false => rfl
              | true =>
                rw [beq_iff_eq] at hbe
                subst hbe
                rw [hgm] at hs
                cases hs
            simp only [List.count_append, List.count_cons, List.count_nil, hne,
              Bool.false_eq_true, if_false, List.countP_cons, hp, Option.any_some]
            rw [ih4 s hs]
            simp [hne]
          · intro s hs
            by_cases hbe : (p.sender == s) = true
            · rw [beq_iff_eq] at hbe
              subst hbe
              have hr := ih5 p.sender hs
              rw [cacheLookup_cons] at hr
              simp at hr
              simp only [List.count_append, List.count_cons, List.count_nil,
                beq_self_eq_true, if_true]
              rw [if_pos hcl]
              omega
            · have hr := ih5 s hs
              rw [cacheLookup_cons, if_neg hbe] at hr
              have hne : (p.sender == s) = false := by
                cases hq : (p.sender == s) with
                | false => rfl
                | true => exact absurd hq hbe
              simp only [List.count_append, List.count_cons, List.count_nil, hne,
                Bool.false_eq_true, if_false]
              simpa using hr
          · intro s v hs hpos
            by_cases hbe : (p.sender == s) = true
            · rw [beq_iff_eq] at hbe
              subst hbe
              rw [hgm] at hs
              cases hs
              apply ih1
              rw [cacheLookup_cons]
              simp
            · apply ih6 s v hs
              simpa [List.countP_cons, hp, hbe] using hpos
      · -- cache hit: no lookup performed, cache unchanged
        have hre : (renderEvent room_info cache e).2 = (cache, ([] : List String)) := by
          simp [renderEvent, hp, hcl]
        obtain ⟨ih1, ih2, ih3, ih4, ih5, ih6⟩ := ih cache hinv
        rw [hgo]
        simp only [hre]
        refine ⟨ih1, ih2, ih3, ?_, ?_, ?_⟩
        · intro s hs
          have hne : (p.sender == s) = false := by
            cases hbe : (p.sender == s) with
            | false => rfl
            | true =>
              rw [beq_iff_eq] at hbe
              subst hbe
              rw [hinv p.sender dn hcl] at hs
              cases hs
          simp only [List.nil_append, List.countP_cons, hp, Option.any_some, hne,
            Bool.false_eq_true, if_false]
          exact ih4 s hs
        · intro s hs
          simpa using ih5 s hs
        · intro s v hs hpos
          by_cases hbe : (p.sender == s) = true
          · rw [beq_iff_eq] at hbe
            subst hbe
            have hdn := hinv p.sender dn hcl
            rw [hdn] at hs
            cases hs
            exact ih1 p.sender dn hcl
          · apply ih6 s v hs
            simpa [List.countP_cons, hp, hbe] using hpos

/-- C9 (amended): within one room's Readable render pass (starting from the
empty cache), the display-name cache holds at most one entry per sender, and
every cached value is the display name the membership lookup returned.  For
a sender the room knows as a member, the entry is written on the first event
from that sender and reused afterwards, so at most one membership lookup is
performed for that sender; for a sender the lookup does not find, nothing is
cached and one membership lookup is performed for every successfully
deserialized event from that sender. -/
theorem display_name_cache_spec (room_info : RoomWithCachedInfo) (events : List RawEvent) :
    (∀ s, ((messagesToTxtGo room_info events []).2.1.countP (fun p => p.1 == s)) ≤ 1) ∧
    (∀ s v, cacheLookup (messagesToTxtGo room_info events []).2.1 s = some v →
      get_member_no_sync room_info.room s = some v) ∧
    (∀ s v, get_member_no_sync room_info.room s = some v →
      0 < events.countP (fun e => e.parsed.any (fun p => p.sender == s)) →
      cacheLookup (messagesToTxtGo room_info events []).2.1 s = some v) ∧
    (∀ s, get_member_no_sync room_info.room s ≠ none →
      (messagesToTxtGo room_info events []).2.2.count s ≤ 1) ∧
    (∀ s, get_member_no_sync room_info.room s = none →
      (messagesToTxtGo room_info events []).2.2.count s =
        events.countP (fun e => e.parsed.any (fun p => p.sender == s))) := by
  have hbase : ∀ s v, cacheLookup ([] : List (String × Option String)) s = some v →
      get_member_no_sync room_info.room s = some v := by
    intro s v h
    rw [cacheLookup_nil] at h
    cases h
  obtain ⟨h1, h2, h3, h4, h5, h6⟩ := messagesToTxtGo_cache_spec room_info events [] hbase
  refine ⟨?_, h2, h6, ?_, h4⟩
  · intro s
    have := h3 s
    simpa using this
  · intro s hs
    have := h5 s hs
    simpa using this

/-- C9 witness: the amended cache behaviour applied to a concrete room whose
member list does not contain the sender: both events trigger a lookup. -/
theorem display_name_cache_spec_witness :
    (messagesToTxtGo plainRoomInfo
      [textEvent 0 "@u:x" "a", textEvent 0 "@u:x" "b"] []).2.2.count "@u:x" =
      ([textEvent 0 "@u:x" "a", textEvent 0 "@u:x" "b"].countP
        (fun e => e.parsed.any (fun p => p.sender == "@u:x"))) :=
  (display_name_cache_spec plainRoomInfo
    [textEvent 0 "@u:x" "a", textEvent 0 "@u:x" "b"]).2.2.2.2 "@u:x" (by decide)

----------------------------------------------------------------
--  C3: a page-fetch failure aborts the whole run              --
----------------------------------------------------------------

/-- C3 counterexample: the first room's page fetch fails, and the run stops
with the error — the second requested room resolves and would export fine,
yet no file is produced for it (nor for any room). -/
theorem export_fetch_failure_cex :
    exportRun clientFailFirst ["!a:x", "!b:x"] [ExportOutputFormat.Json] =
      ([], .error "page fetch failed") := by
  simp [exportRun, exportRooms, get_rooms_info, clientFailFirst, roomFailing, roomHealthy,
    mkRoomWithCachedInfo, List.mergeSort, roomLe, lexLe,
    get_room_index_by_identifier, idMatches, fetchAllEvents_eq, roomMessages]

/-- C3 (amended): if a page fetch fails for one requested room, no file is
written for that room, its partial batch is discarded, and the whole run
aborts with that error (the source's `?`): identifiers after the failing one
are not processed, while the files of rooms exported earlier in the run are
kept. -/
theorem export_fetch_failure_aborts_run
    (accessible_rooms_info : List RoomWithCachedInfo) (pre post : List String)
    (x : String) (formats : List ExportOutputFormat)
    (fs : List (String × String)) (i : Nat) (e : String)
    (hpre : exportRooms accessible_rooms_info pre formats = (fs, .ok ()))
    (hres : get_room_index_by_identifier accessible_rooms_info x = .ok i)
    (hfail : fetchAllEvents (accessible_rooms_info.getD i default).room [] none = .error e) :
    exportRooms accessible_rooms_info (pre ++ x :: post) formats = (fs, .error e) := by
  induction pre generalizing fs with
  | nil =>
    simp only [exportRooms, Prod.mk.injEq] at hpre
    obtain ⟨hfs, -⟩ := hpre
    subst hfs
    simp only [List.nil_append, exportRooms, hres, hfail]
  | cons a pre' ih =>
    rw [List.cons_append]
    cases hra : get_room_index_by_identifier accessible_rooms_info a with
    | error err =>
      simp only [exportRooms, hra] at hpre ⊢
      exact ih fs hpre
    | ok j =>
      cases hfa : fetchAllEvents (accessible_rooms_info.getD j default).room [] none with
      | error e2 =>
        simp only [exportRooms, hra, hfa, Prod.mk.injEq] at hpre
        exact absurd hpre.2 (by simp)
      | ok events =>
        cases hfn : format_export_filename (accessible_rooms_info.getD j default) with
        | none =>
          simp only [exportRooms, hra, hfa, hfn, Prod.mk.injEq] at hpre
          exact absurd hpre.2 (by simp)
        | some base =>
          simp only [exportRooms, hra, hfa, hfn, Prod.mk.injEq] at hpre
          obtain ⟨hfs, hsnd⟩ := hpre
          have hpre' : exportRooms accessible_rooms_info pre' formats =
              ((exportRooms accessible_rooms_info pre' formats).1, .ok ()) := by
            rw [← hsnd]
          have hrec := ih (exportRooms accessible_rooms_info pre' formats).1 hpre'
          simp only [exportRooms, hra, hfa, hfn, hrec]
          rw [← hfs]

/-- C3 witness: a healthy room exported first keeps its file; the failing
room then aborts the run with the fetch error. -/
theorem export_fetch_failure_aborts_run_witness :
    exportRooms [mkRoomWithCachedInfo roomHealthy, mkRoomWithCachedInfo roomFailing]
        (["!b:x"] ++ "!a:x" :: []) [ExportOutputFormat.Json] =
      ([("!b [x].json", "[2]")], .error "page fetch failed") :=
  export_fetch_failure_aborts_run
    [mkRoomWithCachedInfo roomHealthy, mkRoomWithCachedInfo roomFailing]
    ["!b:x"] [] "!a:x" [ExportOutputFormat.Json]
    [("!b [x].json", "[2]")] 1 "page fetch failed"
    (by simp [exportRooms, get_room_index_by_identifier, idMatches, mkRoomWithCachedInfo,
      roomHealthy, roomFailing, fetchAllEvents_eq, roomMessages, format_export_filename,
      splitOnce, splitOnceAux, messages_to_json] <;> decide)
    (by rfl)
    (by simp [mkRoomWithCachedInfo, roomFailing, fetchAllEvents_eq, roomMessages])
